import Mathlib

/-!
Verification development for the per-parameter adaptive update engine of the
repository: the AdaBound optimizer (dynamic-bound adaptive moment estimation,
`optimizer/adabound.py`) and the Yogi optimizer (sign-corrected second-moment
adaptive estimation, `optimizer/yogi.py`).

Tensors are modelled as real-valued vectors `Fin n → ℝ`; every torch
elementwise primitive used by the two optimizers is embedded as a pointwise
operation.  A `step` call is a pure function from the optimizer value (group
hyperparameters, step counter, parameter list with attached gradients and
lazily created state) to a possibly-failing new optimizer value; an exception
escaping `step` is modelled as an error flag together with the partially
mutated optimizer (Python mutates in place, so updates made before the raise
persist).
-/

open Filter Topology

noncomputable section

/-- A fixed-shape tensor of reals, indexed elementwise. -/
abbrev Vec (n : ℕ) := Fin n → ℝ

/-- `torch.zeros_like`. -/
def vzero {n : ℕ} : Vec n := fun _ => 0

/-- `torch.full_like(_, c)`. -/
def vfull (n : ℕ) (c : ℝ) : Vec n := fun _ => c

/-- `a.mul_(c)` — in-place scalar multiply. -/
def vmuls {n : ℕ} (a : Vec n) (c : ℝ) : Vec n := fun i => a i * c

/-- `a.mul(b)` / `a.mul_(b)` — elementwise product. -/
def vmul2 {n : ℕ} (a b : Vec n) : Vec n := fun i => a i * b i

/-- `a.add_(b, alpha=c)`. -/
def vaddAlpha {n : ℕ} (a b : Vec n) (c : ℝ) : Vec n := fun i => a i + b i * c

/-- `a.addcmul_(b, c, value=v)`. -/
def vaddcmul {n : ℕ} (a b c : Vec n) (v : ℝ) : Vec n := fun i => a i + v * (b i * c i)

/-- `a.addcdiv_(b, c, value=v)`. -/
def vaddcdiv {n : ℕ} (a b c : Vec n) (v : ℝ) : Vec n := fun i => a i + v * (b i / c i)

/-- `a.add(c)` — scalar add. -/
def vadds {n : ℕ} (a : Vec n) (c : ℝ) : Vec n := fun i => a i + c

/-- `a.div_(c)` — scalar divide. -/
def vdivs {n : ℕ} (a : Vec n) (c : ℝ) : Vec n := fun i => a i / c

/-- `a.div_(b)` — elementwise divide. -/
def vdiv2 {n : ℕ} (a b : Vec n) : Vec n := fun i => a i / b i

/-- `a.sub(b)` — elementwise difference. -/
def vsub {n : ℕ} (a b : Vec n) : Vec n := fun i => a i - b i

/-- `a.neg_()`. -/
def vneg {n : ℕ} (a : Vec n) : Vec n := fun i => -(a i)

/-- `a.sqrt_()` / `a.sqrt()`. -/
def vsqrt {n : ℕ} (a : Vec n) : Vec n := fun i => Real.sqrt (a i)

/-- `torch.max(a, b)` — elementwise maximum. -/
def vmaxv {n : ℕ} (a b : Vec n) : Vec n := fun i => max (a i) (b i)

/-- `a.clamp_(lo, hi)` — elementwise `min (max x lo) hi`. -/
def vclamp {n : ℕ} (a : Vec n) (lo hi : ℝ) : Vec n := fun i => min (max (a i) lo) hi

/-- `a.sign_()` — real elementwise sign (0 maps to 0). -/
def vsgn {n : ℕ} (a : Vec n) : Vec n := fun i => Real.sign (a i)

/-- The gradient slot `p.grad` of a parameter: absent, in sparse/coordinate
layout, or dense with concrete values. -/
inductive Grad (n : ℕ) where
  | absent
  | sparse
  | dense (g : Vec n)
deriving DecidableEq

/-- Errors that can escape a `step` call.  `noSparseGradient` is the
repository's `NoSparseGradientError`; `keyError` is a Python `KeyError` on a
missing state-dictionary key; `runtimeError` stands for the tensor library
rejecting an elementwise operation on a sparse-layout operand. -/
inductive OptError where
  | noSparseGradient
  | keyError
  | runtimeError
deriving DecidableEq

/-- The step counter stored in a group dictionary: `'step' in group` is
`Option.isSome`; creation on first step stores `1`, later steps add `1`. -/
def nextStepCount : Option ℕ → ℕ
  | some s => s + 1
  | none => 1

namespace AdaBound

/-- Hyperparameter record of one AdaBound parameter group (`defaults` of
`AdaBound.__init__`). -/
structure Config where
  lr : ℝ
  beta1 : ℝ
  beta2 : ℝ
  final_lr : ℝ
  gamma : ℝ
  weight_decay : ℝ
  weight_decouple : Bool
  fixed_decay : Bool
  ams_bound : Bool
  adam_debias : Bool
  eps : ℝ

/-- Per-parameter state dictionary of AdaBound.  `max_exp_avg_sq` is present
only when created with `ams_bound`; `state_step` models the `'step'` key that
`reset` writes (`step` itself never reads it). -/
@[ext]
structure State (n : ℕ) where
  exp_avg : Vec n
  exp_avg_sq : Vec n
  max_exp_avg_sq : Option (Vec n)
  state_step : Option ℕ

/-- One parameter: its value, its gradient slot, and its lazily created
state entry (`none` = no entry in `self.state`). -/
structure Param (n : ℕ) where
  p : Vec n
  grad : Grad n
  st : Option (State n)

/-- One AdaBound optimizer over a single parameter group.  `base_lr` is the
construction-time snapshot of the learning rate (`self.base_lrs`). -/
structure Opt (n : ℕ) where
  cfg : Config
  base_lr : ℝ
  stepCount : Option ℕ
  params : List (Param n)

/-- `final_lr = group['final_lr'] * group['lr'] / base_lr` (line 104). -/
def finalLr (cfg : Config) (base_lr : ℝ) : ℝ := cfg.final_lr * cfg.lr / base_lr

/-- `lower_bound = final_lr * (1 - 1 / (gamma * step + 1))` (line 105). -/
def lowerBound (cfg : Config) (base_lr : ℝ) (t : ℕ) : ℝ :=
  finalLr cfg base_lr * (1 - 1 / (cfg.gamma * t + 1))

/-- `upper_bound = final_lr * (1 + 1 / (gamma * step))` (line 106). -/
def upperBound (cfg : Config) (base_lr : ℝ) (t : ℕ) : ℝ :=
  finalLr cfg base_lr * (1 + 1 / (cfg.gamma * t))

/-- AdaBound's inline weight-decay policy (lines 124–127): decoupled
multiplicative shrink of the parameter, else coupled `grad += wd * p` when
`weight_decay > 0`; returns the (possibly mutated) parameter and gradient. -/
def applyDecay (cfg : Config) {n : ℕ} (p g : Vec n) : Vec n × Vec n :=
  if cfg.weight_decouple then
    (vmuls p (1 - cfg.weight_decay * (if cfg.fixed_decay then 1 else cfg.lr)), g)
  else if 0 < cfg.weight_decay then
    (p, vaddAlpha g p cfg.weight_decay)
  else
    (p, g)

/-- The per-parameter update of `AdaBound.step` (lines 124–150), applied after
the state entry exists; the group-level quantities `t`, `lo`, `hi` are passed
in.  Returns the new parameter value, the (possibly mutated) gradient, and the
new state.  Reading a missing `max_exp_avg_sq` key is a `KeyError`. -/
def update (cfg : Config) (t : ℕ) (lo hi : ℝ) {n : ℕ} (p g : Vec n) (st : State n) :
    Except OptError (Vec n × Vec n × State n) :=
  let pg := applyDecay cfg p g
  let p1 := pg.1
  let g1 := pg.2
  let exp_avg := vaddAlpha (vmuls st.exp_avg cfg.beta1) g1 (1 - cfg.beta1)
  let exp_avg_sq := vaddcmul (vmuls st.exp_avg_sq cfg.beta2) g1 g1 (1 - cfg.beta2)
  let bias_correction1 := 1 - cfg.beta1 ^ t
  let bias_correction2_sq := Real.sqrt (1 - cfg.beta2 ^ t)
  let de_nomE : Except OptError (Vec n × Option (Vec n)) :=
    if cfg.ams_bound then
      match st.max_exp_avg_sq with
      | some mx =>
        let mx' := vmaxv mx exp_avg_sq
        .ok (vadds mx' cfg.eps, some mx')
      | none => .error .keyError
    else
      .ok (vadds exp_avg_sq cfg.eps, st.max_exp_avg_sq)
  match de_nomE with
  | .error e => .error e
  | .ok (dn0, mx') =>
    let de_nom := vsqrt dn0
    let ss0 := cfg.lr * bias_correction2_sq
    let ss := if cfg.adam_debias then ss0 else ss0 / bias_correction1
    let step_size := vmul2 (vclamp (vdiv2 (vfull n ss) de_nom) lo hi) exp_avg
    .ok (vsub p1 step_size, g1, ⟨exp_avg, exp_avg_sq, mx', st.state_step⟩)

/-- Lazy state creation at first encounter of a gradient (lines 118–122). -/
def freshState (cfg : Config) (n : ℕ) : State n :=
  ⟨vzero, vzero, if cfg.ams_bound then some vzero else none, none⟩

/-- Processing of one parameter inside the loop of `AdaBound.step`
(lines 108–150): skip an absent gradient, raise `NoSparseGradientError` on a
sparse one before touching any state, else lazily create the state entry and
apply `update`.  On an error the parameter is returned unmutated. -/
def handleParam (cfg : Config) (t : ℕ) (lo hi : ℝ) {n : ℕ} (pr : Param n) :
    Option OptError × Param n :=
  match pr.grad with
  | .absent => (none, pr)
  | .sparse => (some .noSparseGradient, pr)
  | .dense g =>
    let st0 := match pr.st with
      | some s => s
      | none => freshState cfg n
    match update cfg t lo hi pr.p g st0 with
    | .error e => (some e, pr)
    | .ok (p', g', st') => (none, ⟨p', .dense g', some st'⟩)

/-- The parameter loop of `AdaBound.step`: parameters are processed in order;
the first raised error stops the loop, leaving that parameter and all later
ones untouched (earlier in-place updates persist). -/
def loop (cfg : Config) (t : ℕ) (lo hi : ℝ) {n : ℕ} :
    List (Param n) → Option OptError × List (Param n)
  | [] => (none, [])
  | pr :: rest =>
    match handleParam cfg t lo hi pr with
    | (some e, pr') => (some e, pr' :: rest)
    | (none, pr') =>
      let r := loop cfg t lo hi rest
      (r.1, pr' :: r.2)

/-- `AdaBound.step` (lines 86–152) for one group: the group step counter is
created at 1 or incremented, the bounds are computed from it, then every
parameter is visited. -/
def step {n : ℕ} (o : Opt n) : Option OptError × Opt n :=
  let t := nextStepCount o.stepCount
  let lo := lowerBound o.cfg o.base_lr t
  let hi := upperBound o.cfg o.base_lr t
  let r := loop o.cfg t lo hi o.params
  (r.1, { o with stepCount := some t, params := r.2 })

/-- `AdaBound.reset` (lines 74–84): every parameter (state entries are created
on demand by the defaultdict) gets `state['step'] = 0`, zeroed moment
accumulators, and — only when `ams_bound` — a zeroed max accumulator; the
group dictionary (hyperparameters and `group['step']`) is untouched. -/
def reset {n : ℕ} (o : Opt n) : Opt n :=
  { o with
    params := o.params.map fun pr =>
      { pr with
        st := some ⟨vzero, vzero,
          (if o.cfg.ams_bound then some vzero else
            match pr.st with
            | some s => s.max_exp_avg_sq
            | none => none),
          some 0⟩ } }

end AdaBound

/-- Modelled from the spec: `BaseOptimizer.debias` is not under `src/`; §4.5/§4.6
step 1 define the bias corrections as `1 − β^t`. -/
def debias (beta : ℝ) (t : ℕ) : ℝ := 1 - beta ^ t

/-- Modelled from the spec: `BaseOptimizer.apply_adam_debias` is not under
`src/`; §4.5 step 9 / §4.6 step 2 divide the step size by `bias_correction1`
unless the `adam_debias` flag requests skipping that correction. -/
def apply_adam_debias (adam_debias : Bool) (step_size bias_correction1 : ℝ) : ℝ :=
  if adam_debias then step_size else step_size / bias_correction1

/-- Modelled from the spec: `BaseOptimizer.maximize_gradient` is not under
`src/`; §4.3 negates the raw gradient array in place when maximizing. -/
def maximize_gradient {n : ℕ} (g : Vec n) (maximize : Bool) : Vec n :=
  if maximize then vneg g else g

/-- Modelled from the spec: `BaseOptimizer.apply_weight_decay` is not under
`src/`; §4.4: no-op when `weight_decay == 0`, decoupled multiplicative shrink
of the parameter when `decouple`, else coupled `grad += weight_decay * p`.
Returns the (possibly mutated) parameter and gradient. -/
def apply_weight_decay {n : ℕ} (p g : Vec n) (lr weight_decay : ℝ)
    (weight_decouple fixed_decay : Bool) : Vec n × Vec n :=
  if weight_decay = 0 then (p, g)
  else if weight_decouple then
    (vmuls p (1 - weight_decay * (if fixed_decay then 1 else lr)), g)
  else
    (p, vaddAlpha g p weight_decay)

namespace Yogi

/-- Hyperparameter record of one Yogi parameter group (`defaults` of
`Yogi.__init__`); `adam_debias` models the `group.get('adam_debias', False)`
lookup fed from `**kwargs`, and `maximize` the instance-level flag. -/
structure Config where
  lr : ℝ
  beta1 : ℝ
  beta2 : ℝ
  initial_accumulator : ℝ
  weight_decay : ℝ
  weight_decouple : Bool
  fixed_decay : Bool
  eps : ℝ
  maximize : Bool
  adam_debias : Bool

/-- Per-parameter state dictionary of Yogi. -/
@[ext]
structure State (n : ℕ) where
  exp_avg : Vec n
  exp_avg_sq : Vec n

/-- One parameter: value, gradient slot, optional state entry. -/
structure Param (n : ℕ) where
  p : Vec n
  grad : Grad n
  st : Option (State n)

/-- One Yogi optimizer over a single parameter group. -/
structure Opt (n : ℕ) where
  cfg : Config
  stepCount : Option ℕ
  params : List (Param n)

/-- `Yogi.init_group` (lines 60–73): parameters with an absent gradient are
skipped; a sparse gradient raises `NoSparseGradientError`, stopping the scan
before any state creation for that parameter; otherwise an empty state entry
is filled with the `initial_accumulator` constant. -/
def init_group (cfg : Config) {n : ℕ} :
    List (Param n) → Option OptError × List (Param n)
  | [] => (none, [])
  | pr :: rest =>
    match pr.grad with
    | .absent =>
      let r := init_group cfg rest
      (r.1, pr :: r.2)
    | .sparse => (some .noSparseGradient, pr :: rest)
    | .dense _ =>
      let pr' : Param n :=
        match pr.st with
        | some _ => pr
        | none =>
          { pr with st := some ⟨vfull n cfg.initial_accumulator, vfull n cfg.initial_accumulator⟩ }
      let r := init_group cfg rest
      (r.1, pr' :: r.2)

/-- Processing of one parameter inside the loop of `Yogi.step` (lines 98–133).
The loop itself performs no sparse check and no lazy state creation: a sparse
gradient reaches the dense elementwise primitives (modelled from the spec —
§1/§4.3 define elementwise arithmetic on dense layouts only — as a runtime
failure distinct from `NoSparseGradientError`), and a parameter without a
state entry mutates under weight decay and then fails with a `KeyError` at
the read of `state['exp_avg']`. -/
def handleParam (cfg : Config) (t : ℕ) {n : ℕ} (pr : Param n) :
    Option OptError × Param n :=
  match pr.grad with
  | .absent => (none, pr)
  | .sparse => (some .runtimeError, pr)
  | .dense g0 =>
    let g1 := maximize_gradient g0 cfg.maximize
    let pg := apply_weight_decay pr.p g1 cfg.lr cfg.weight_decay
      cfg.weight_decouple cfg.fixed_decay
    let p0 := pg.1
    let g := pg.2
    match pr.st with
    | none => (some .keyError, { pr with p := p0, grad := .dense g })
    | some st =>
      let grad_p2 := vmul2 g g
      let exp_avg := vaddAlpha (vmuls st.exp_avg cfg.beta1) g (1 - cfg.beta1)
      let exp_avg_sq :=
        vaddcmul st.exp_avg_sq (vsgn (vsub st.exp_avg_sq grad_p2)) grad_p2 (-(1 - cfg.beta2))
      let bias_correction2_sq := Real.sqrt (debias cfg.beta2 t)
      let de_nom := vadds (vdivs (vsqrt exp_avg_sq) bias_correction2_sq) cfg.eps
      let step_size := apply_adam_debias cfg.adam_debias cfg.lr (debias cfg.beta1 t)
      (none, ⟨vaddcdiv p0 exp_avg de_nom (-step_size), .dense g, some ⟨exp_avg, exp_avg_sq⟩⟩)

/-- The parameter loop of `Yogi.step`: in-order processing, first error stops
the loop with that parameter and all later ones untouched. -/
def loop (cfg : Config) (t : ℕ) {n : ℕ} :
    List (Param n) → Option OptError × List (Param n)
  | [] => (none, [])
  | pr :: rest =>
    match handleParam cfg t pr with
    | (some e, pr') => (some e, pr' :: rest)
    | (none, pr') =>
      let r := loop cfg t rest
      (r.1, pr' :: r.2)

/-- `Yogi.step` (lines 75–135): only when the group has no step counter does
`init_group` run (sparse check and state creation), after which the counter is
created at 1; an error raised by `init_group` escapes before the counter is
written.  On later calls the counter is incremented and the loop runs
directly. -/
def step {n : ℕ} (o : Opt n) : Option OptError × Opt n :=
  match o.stepCount with
  | none =>
    let r := init_group o.cfg o.params
    match r.1 with
    | some e => (some e, { o with params := r.2 })
    | none =>
      let r2 := loop o.cfg 1 r.2
      (r2.1, { o with stepCount := some 1, params := r2.2 })
  | some s =>
    let r2 := loop o.cfg (s + 1) o.params
    (r2.1, { o with stepCount := some (s + 1), params := r2.2 })

end Yogi

/-! ## Spec-side update formulas

For the two functional-correctness refinement claims, the claimed per-parameter
update formulas are written out verbatim as separate definitions, to be
compared with the operation chains embedded from the source. -/

/-- The update formula claimed for Variant A (AdaBound), written from the
claim's wording: moment recurrences, denominator with optional AMS max,
debiased scalar step size, clamped per-element step, and the parameter
decrement.  `mx` is the current max accumulator (relevant only with
AMS-bound). -/
def adaBoundUpdateSpec (cfg : AdaBound.Config) (t : ℕ) (lo hi : ℝ) {n : ℕ}
    (p g : Vec n) (st : AdaBound.State n) (mx : Vec n) :
    Vec n × Vec n × AdaBound.State n :=
  let m : Vec n := fun i => cfg.beta1 * st.exp_avg i + (1 - cfg.beta1) * g i
  let v : Vec n := fun i => cfg.beta2 * st.exp_avg_sq i + (1 - cfg.beta2) * g i ^ 2
  let mx' : Vec n := fun i => max (mx i) (v i)
  let dn : Vec n := fun i =>
    if cfg.ams_bound then Real.sqrt (mx' i + cfg.eps) else Real.sqrt (v i + cfg.eps)
  let ss : ℝ := cfg.lr * Real.sqrt (1 - cfg.beta2 ^ t) /
    (if cfg.adam_debias then 1 else 1 - cfg.beta1 ^ t)
  (fun i => p i - min (max (ss / dn i) lo) hi * m i, g,
    { exp_avg := m, exp_avg_sq := v,
      max_exp_avg_sq := if cfg.ams_bound then some mx' else st.max_exp_avg_sq,
      state_step := st.state_step })

/-- The update formula claimed for Variant B (Yogi), written from the claim's
wording: first-moment recurrence, signed second-moment increment, debiased
denominator, and divide-accumulate parameter decrement. -/
def yogiUpdateSpec (cfg : Yogi.Config) (t : ℕ) {n : ℕ}
    (p g : Vec n) (st : Yogi.State n) : Yogi.Param n :=
  let m : Vec n := fun i => cfg.beta1 * st.exp_avg i + (1 - cfg.beta1) * g i
  let v : Vec n := fun i =>
    st.exp_avg_sq i - (1 - cfg.beta2) * Real.sign (st.exp_avg_sq i - g i ^ 2) * g i ^ 2
  let dn : Vec n := fun i => Real.sqrt (v i) / Real.sqrt (1 - cfg.beta2 ^ t) + cfg.eps
  let ss : ℝ := if cfg.adam_debias then cfg.lr else cfg.lr / (1 - cfg.beta1 ^ t)
  ⟨fun i => p i - ss * m i / dn i, .dense g, some ⟨m, v⟩⟩

/-! ## Helper lemmas -/

/-- Scalar multiplication by one is the identity. -/
lemma vmuls_one {n : ℕ} (a : Vec n) : vmuls a 1 = a :=
  funext fun i => mul_one (a i)

/-- With zero weight decay AdaBound's inline decay leaves values unchanged. -/
lemma AdaBound.applyDecay_wd_zero (cfg : Config) (hwd : cfg.weight_decay = 0)
    {n : ℕ} (p g : Vec n) : applyDecay cfg p g = (p, g) := by
  unfold applyDecay
  cases hdec : cfg.weight_decouple with
  | true => simp [hwd, vmuls_one]
  | false => simp [hwd]

/-- With zero weight decay the modelled shared decay helper is the identity. -/
lemma apply_weight_decay_zero {n : ℕ} (p g : Vec n) (lr : ℝ) (dec fix : Bool) :
    apply_weight_decay p g lr 0 dec fix = (p, g) := by
  unfold apply_weight_decay
  rw [if_pos rfl]

/-- Minimization mode leaves the gradient untouched. -/
lemma maximize_gradient_false {n : ℕ} (g : Vec n) :
    maximize_gradient g false = g := by
  simp [maximize_gradient]

/-- The in-place first-moment chain `m.mul_(β).add_(g, alpha=1-β)` is the
claimed convex recurrence. -/
lemma vaddAlpha_moment {n : ℕ} (m g : Vec n) (β : ℝ) :
    vaddAlpha (vmuls m β) g (1 - β) = fun i => β * m i + (1 - β) * g i :=
  funext fun i => by simp only [vaddAlpha, vmuls]; ring

/-- The in-place second-moment chain `v.mul_(β).addcmul_(g, g, value=1-β)` is
the claimed convex recurrence on the squared gradient. -/
lemma vaddcmul_moment {n : ℕ} (v g : Vec n) (β : ℝ) :
    vaddcmul (vmuls v β) g g (1 - β) = fun i => β * v i + (1 - β) * g i ^ 2 :=
  funext fun i => by simp only [vaddcmul, vmuls]; ring

/-! ## Claim C1 -/

/-- Claim C1: for AdaBound, per parameter with a defined dense gradient at
group step count `t` (here with zero weight decay, so the gradient entering
the moment updates is the raw one), the first moment becomes
`β1·m + (1−β1)·g`, the second moment becomes `β2·v + (1−β2)·g²`, the
denominator is `sqrt(v + ε)` (resp. `sqrt(max(mx, v) + ε)` with AMS-bound
after the max accumulator is updated), the scalar step size is
`lr·sqrt(1−β2^t)` divided by `1−β1^t` unless `adam_debias`, and the parameter
is decremented by `clamp(step_size/denom, lo, hi)·m`. -/
theorem c1_adabound_dense_update (cfg : AdaBound.Config) (t : ℕ) (lo hi : ℝ) {n : ℕ}
    (p g : Vec n) (st : AdaBound.State n) (mx : Vec n)
    (hwd : cfg.weight_decay = 0)
    (hmx : cfg.ams_bound = true → st.max_exp_avg_sq = some mx) :
    AdaBound.update cfg t lo hi p g st =
      Except.ok (adaBoundUpdateSpec cfg t lo hi p g st mx) := by
  simp only [AdaBound.update, adaBoundUpdateSpec,
    AdaBound.applyDecay_wd_zero cfg hwd, vaddAlpha_moment, vaddcmul_moment]
  cases hab : cfg.ams_bound with
  | false =>
    cases hdb : cfg.adam_debias with
    | false =>
      simp only [hab, if_false, Bool.false_eq_true, hdb]
      simp [vsub, vmul2, vclamp, vdiv2, vfull, vsqrt, vadds]
      funext i
      simp [vsub, vmul2, vclamp, vdiv2, vfull, vsqrt, vadds]
    | true =>
      simp only [hab, if_false, Bool.false_eq_true, hdb]
      simp [vsub, vmul2, vclamp, vdiv2, vfull, vsqrt, vadds]
      funext i
      simp [vsub, vmul2, vclamp, vdiv2, vfull, vsqrt, vadds]
  | true =>
    have hm := hmx hab
    cases hdb : cfg.adam_debias with
    | false =>
      simp only [hab, hm, if_true, hdb]
      simp [vsub, vmul2, vclamp, vdiv2, vfull, vsqrt, vadds, vmaxv]
      constructor
      · funext i
        simp [vsub, vmul2, vclamp, vdiv2, vfull, vsqrt, vadds, vmaxv]
      · funext i
        simp [vmaxv]
    | true =>
      simp only [hab, hm, if_true, hdb]
      simp [vsub, vmul2, vclamp, vdiv2, vfull, vsqrt, vadds, vmaxv]
      constructor
      · funext i
        simp [vsub, vmul2, vclamp, vdiv2, vfull, vsqrt, vadds, vmaxv]
      · funext i
        simp [vmaxv]

/-- Concrete AdaBound configuration (the constructor defaults) used by
witnesses. -/
def c1cfg : AdaBound.Config :=
  ⟨1e-3, 0.9, 0.999, 1e-1, 1e-3, 0, true, false, false, false, 1e-8⟩

theorem c1_adabound_dense_update_witness :
    AdaBound.update c1cfg 1 0 1 (vfull 1 1) (vfull 1 1)
        ⟨vzero, vzero, none, none⟩ =
      Except.ok (adaBoundUpdateSpec c1cfg 1 0 1 (vfull 1 1) (vfull 1 1)
        ⟨vzero, vzero, none, none⟩ vzero) :=
  c1_adabound_dense_update c1cfg 1 0 1 (vfull 1 1) (vfull 1 1)
    ⟨vzero, vzero, none, none⟩ vzero rfl (fun h => nomatch h)

/-! ## Claim C2 -/

/-- Claim C2: for Yogi, per parameter with a defined dense gradient at group
step count `t` (minimizing, zero weight decay, so the gradient entering the
update is the raw one): first moment `β1·m + (1−β1)·g`; second moment changes
by exactly `−(1−β2)·sign(v − g²)·g²` with the elementwise real sign in
`{−1, 0, 1}`; denominator `sqrt(v')/sqrt(1−β2^t) + ε`; parameter decremented
by `step_size·m'/denom` with `step_size = lr/(1−β1^t)` unless `adam_debias`. -/
theorem c2_yogi_dense_update (cfg : Yogi.Config) (t : ℕ) {n : ℕ}
    (pr : Yogi.Param n) (g : Vec n) (st : Yogi.State n)
    (hg : pr.grad = .dense g) (hst : pr.st = some st)
    (hwd : cfg.weight_decay = 0) (hmax : cfg.maximize = false) :
    Yogi.handleParam cfg t pr = (none, yogiUpdateSpec cfg t pr.p g st) ∧
    (∀ i, Real.sign (st.exp_avg_sq i - g i ^ 2) = -1 ∨
          Real.sign (st.exp_avg_sq i - g i ^ 2) = 0 ∨
          Real.sign (st.exp_avg_sq i - g i ^ 2) = 1) ∧
    (∀ s', (yogiUpdateSpec cfg t pr.p g st).st = some s' →
      ∀ i, s'.exp_avg_sq i - st.exp_avg_sq i =
        -(1 - cfg.beta2) * Real.sign (st.exp_avg_sq i - g i ^ 2) * g i ^ 2) := by
  obtain ⟨pp, pgrad, pst⟩ := pr
  simp only at hg hst
  subst hg
  subst hst
  have hV : vaddcmul st.exp_avg_sq (vsgn (vsub st.exp_avg_sq (vmul2 g g))) (vmul2 g g)
      (-(1 - cfg.beta2)) =
      (fun i => st.exp_avg_sq i -
        (1 - cfg.beta2) * Real.sign (st.exp_avg_sq i - g i ^ 2) * g i ^ 2 : Vec n) := by
    funext i
    simp only [vaddcmul, vsgn, vsub, vmul2, ← pow_two]
    ring
  refine ⟨?_, ?_, ?_⟩
  · cases hdb : cfg.adam_debias with
    | false =>
      simp only [Yogi.handleParam, hmax, maximize_gradient_false, hwd, apply_weight_decay_zero,
        vaddAlpha_moment, hV, yogiUpdateSpec, hdb]
      simp [Prod.mk.injEq, Yogi.Param.mk.injEq, Yogi.State.mk.injEq,
        apply_adam_debias, debias]
      all_goals funext i
      all_goals simp [vaddcdiv, vadds, vdivs, vsqrt]
      all_goals ring
    | true =>
      simp only [Yogi.handleParam, hmax, maximize_gradient_false, hwd, apply_weight_decay_zero,
        vaddAlpha_moment, hV, yogiUpdateSpec, hdb]
      simp [Prod.mk.injEq, Yogi.Param.mk.injEq, Yogi.State.mk.injEq,
        apply_adam_debias, debias]
      all_goals funext i
      all_goals simp [vaddcdiv, vadds, vdivs, vsqrt]
      all_goals ring
  · intro i
    rcases lt_trichotomy (st.exp_avg_sq i - g i ^ 2) 0 with h | h | h
    · exact Or.inl (Real.sign_of_neg h)
    · exact Or.inr (Or.inl (by rw [h, Real.sign_zero]))
    · exact Or.inr (Or.inr (Real.sign_of_pos h))
  · intro s' hs' i
    simp only [yogiUpdateSpec, Option.some.injEq] at hs'
    subst hs'
    simp only
    ring

/-- Concrete Yogi configuration (the constructor defaults) for the C2
witness. -/
def c2cfg : Yogi.Config := ⟨1e-2, 0.9, 0.999, 1e-6, 0, true, false, 1e-3, false, false⟩

/-- Concrete Yogi state for the C2 witness. -/
def c2st : Yogi.State 1 := ⟨vfull 1 1e-6, vfull 1 1e-6⟩

/-- Concrete Yogi parameter for the C2 witness. -/
def c2pr : Yogi.Param 1 := ⟨vfull 1 1, Grad.dense (vfull 1 1), some c2st⟩

theorem c2_yogi_dense_update_witness :
    Yogi.handleParam c2cfg 1 c2pr = (none, yogiUpdateSpec c2cfg 1 c2pr.p (vfull 1 1) c2st) :=
  (c2_yogi_dense_update c2cfg 1 c2pr (vfull 1 1) c2st rfl rfl rfl rfl).1

/-! ## Claim C3 -/

/-- A Yogi per-parameter pass never raises `NoSparseGradientError`: the only
errors of the inner loop are the modelled runtime failure on a sparse layout
and the `KeyError` on a missing state entry. -/
lemma Yogi.handleParam_ne_noSparse (cfg : Config) (t : ℕ) {n : ℕ} (pr : Param n) :
    (handleParam cfg t pr).1 ≠ some OptError.noSparseGradient := by
  cases hg : pr.grad with
  | absent => simp [handleParam, hg]
  | sparse => simp [handleParam, hg]
  | dense g =>
    cases hst : pr.st with
    | none => simp [handleParam, hg, hst]
    | some st => simp [handleParam, hg, hst]

/-- The Yogi parameter loop never raises `NoSparseGradientError`. -/
lemma Yogi.loop_ne_noSparse (cfg : Config) (t : ℕ) {n : ℕ} (l : List (Param n)) :
    (loop cfg t l).1 ≠ some OptError.noSparseGradient := by
  induction l with
  | nil => simp [loop]
  | cons pr rest ih =>
    have hpr := handleParam_ne_noSparse cfg t pr
    rcases hh : handleParam cfg t pr with ⟨e, pr'⟩
    rw [hh] at hpr
    cases e with
    | some e0 => simp [loop, hh]; rintro rfl; exact hpr rfl
    | none => simp [loop, hh]; exact ih

/-- Concrete Yogi optimizer whose group step counter already exists (the
group's first step call has happened) and whose sole parameter now carries a
sparse gradient. -/
def c3yopt : Yogi.Opt 1 :=
  ⟨⟨1e-2, 0.9, 0.999, 1e-6, 0, true, false, 1e-3, false, false⟩, some 1,
    [⟨vfull 1 1, Grad.sparse, some ⟨vfull 1 1e-6, vfull 1 1e-6⟩⟩]⟩

/-- Claim C3 counterexample: on a step call after the group's first one
(step count 2 here), a sparse gradient does not make Yogi raise
`NoSparseGradientError` — the sparse check lives only in `init_group`, which
runs only when the group has no step counter; the unchecked sparse gradient
instead hits the dense tensor arithmetic. -/
theorem c3_sparse_second_step_cex :
    (Yogi.step c3yopt).1 = some OptError.runtimeError ∧
    (Yogi.step c3yopt).1 ≠ some OptError.noSparseGradient := by
  have h : (Yogi.step c3yopt).1 = some OptError.runtimeError := rfl
  exact ⟨h, by rw [h]; simp⟩

/-- Claim C3 as amended: a sparse gradient makes AdaBound raise
`NoSparseGradientError` at every step count, before any mutation of that
parameter or its state, and the error propagates out of `step`; Yogi raises
`NoSparseGradientError` only from `init_group` — i.e. only during the group's
first step call, before any state creation for that parameter — and on any
later step call (group step counter present) `step` never reports
`NoSparseGradientError`. -/
theorem c3_sparse_rejection_amended :
    (∀ (cfg : AdaBound.Config) (t : ℕ) (lo hi : ℝ) {n : ℕ} (pr : AdaBound.Param n),
      pr.grad = .sparse →
      AdaBound.handleParam cfg t lo hi pr = (some OptError.noSparseGradient, pr)) ∧
    (∀ {n : ℕ} (o : AdaBound.Opt n) (pr : AdaBound.Param n) (rest : List (AdaBound.Param n)),
      o.params = pr :: rest → pr.grad = .sparse →
      (AdaBound.step o).1 = some OptError.noSparseGradient) ∧
    (∀ (cfg : Yogi.Config) {n : ℕ} (pr : Yogi.Param n) (rest : List (Yogi.Param n)),
      pr.grad = .sparse →
      Yogi.init_group cfg (pr :: rest) = (some OptError.noSparseGradient, pr :: rest)) ∧
    (∀ {n : ℕ} (o : Yogi.Opt n) (s : ℕ), o.stepCount = some s →
      (Yogi.step o).1 ≠ some OptError.noSparseGradient) := by
  refine ⟨?_, ?_, ?_, ?_⟩
  · intro cfg t lo hi n pr hg
    simp [AdaBound.handleParam, hg]
  · intro n o pr rest ho hg
    simp [AdaBound.step, AdaBound.loop, ho, AdaBound.handleParam, hg]
  · intro cfg n pr rest hg
    simp [Yogi.init_group, hg]
  · intro n o s hs
    simp only [Yogi.step, hs]
    exact Yogi.loop_ne_noSparse o.cfg (s + 1) o.params

/-- Concrete AdaBound optimizer with a sparse gradient for the C3 witness. -/
def c3abopt : AdaBound.Opt 1 :=
  ⟨⟨1e-3, 0.9, 0.999, 1e-1, 1e-3, 0, true, false, false, false, 1e-8⟩, 1e-3, some 4,
    [⟨vfull 1 1, Grad.sparse, none⟩]⟩

theorem c3_sparse_rejection_amended_witness :
    (AdaBound.step c3abopt).1 = some OptError.noSparseGradient ∧
    (Yogi.step c3yopt).1 ≠ some OptError.noSparseGradient :=
  ⟨c3_sparse_rejection_amended.2.1 c3abopt ⟨vfull 1 1, Grad.sparse, none⟩ [] rfl rfl,
   c3_sparse_rejection_amended.2.2.2 c3yopt 1 rfl⟩

/-! ## Claim C4 -/

/-- AdaBound's per-parameter update always succeeds on a freshly created
state entry (the max accumulator is created exactly when AMS-bound needs
it). -/
lemma AdaBound.update_fresh_ok (cfg : Config) (t : ℕ) (lo hi : ℝ) {n : ℕ} (p g : Vec n) :
    ∃ r, update cfg t lo hi p g (freshState cfg n) = .ok r := by
  cases hab : cfg.ams_bound with
  | false => simp [update, freshState, hab]
  | true => simp [update, freshState, hab]

/-- Concrete Yogi configuration for the C4 counterexample. -/
def c4cfg : Yogi.Config := ⟨1e-2, 0.9, 0.999, 1e-6, 0, true, false, 1e-3, false, false⟩

/-- Yogi optimizer before its first step call: the sole parameter has no
gradient yet. -/
def c4optA : Yogi.Opt 1 := ⟨c4cfg, none, [⟨vfull 1 1, Grad.absent, none⟩]⟩

/-- The same optimizer after the first step call, once the parameter's
gradient has become defined. -/
def c4optB : Yogi.Opt 1 := ⟨c4cfg, some 1, [⟨vfull 1 1, Grad.dense (vfull 1 1), none⟩]⟩

/-- Claim C4 counterexample: in Yogi, a parameter whose gradient first
becomes defined only after the group's first step call never gets a state
entry — the first call (gradient absent) creates none, and the second call
fails with a `KeyError` instead of creating one. -/
theorem c4_yogi_late_gradient_cex :
    (Yogi.step c4optA).2.stepCount = some 1 ∧
    (Yogi.step c4optA).2.params = c4optA.params ∧
    (Yogi.step c4optB).1 = some OptError.keyError ∧
    (Yogi.step c4optB).2.params = c4optB.params := by
  refine ⟨rfl, rfl, ?_, ?_⟩
  · simp [Yogi.step, Yogi.loop, Yogi.handleParam, c4optB, c4cfg,
      maximize_gradient_false, apply_weight_decay_zero]
  · simp [Yogi.step, Yogi.loop, Yogi.handleParam, c4optB, c4cfg,
      maximize_gradient_false, apply_weight_decay_zero]

/-- Claim C4 as amended: a parameter with a defined dense gradient has
exactly one state entry before its update is applied, created lazily — for
Variant A (AdaBound) at any step count, including a gradient first defined
after the group's first step call; for Variant B (Yogi) only during the
group's first step call (`init_group`): on a later call a parameter without
a state entry fails with a `KeyError` and still gets no entry. -/
theorem c4_state_creation_amended :
    (∀ (cfg : AdaBound.Config) (t : ℕ) (lo hi : ℝ) {n : ℕ}
        (pr : AdaBound.Param n) (g : Vec n),
      pr.grad = .dense g → pr.st = none →
      ∃ p' g' st', AdaBound.update cfg t lo hi pr.p g (AdaBound.freshState cfg n) =
          .ok (p', g', st') ∧
        AdaBound.handleParam cfg t lo hi pr = (none, ⟨p', .dense g', some st'⟩)) ∧
    (∀ (cfg : AdaBound.Config) (t : ℕ) (lo hi : ℝ) {n : ℕ}
        (pr : AdaBound.Param n) (g : Vec n) (s : AdaBound.State n)
        (p' g' : Vec n) (st' : AdaBound.State n),
      pr.grad = .dense g → pr.st = some s →
      AdaBound.update cfg t lo hi pr.p g s = .ok (p', g', st') →
      AdaBound.handleParam cfg t lo hi pr = (none, ⟨p', .dense g', some st'⟩)) ∧
    (∀ (cfg : Yogi.Config) {n : ℕ} (pr : Yogi.Param n) (rest : List (Yogi.Param n))
        (g : Vec n),
      pr.grad = .dense g → pr.st = none →
      Yogi.init_group cfg (pr :: rest) =
        ((Yogi.init_group cfg rest).1,
          { pr with st := some ⟨vfull n cfg.initial_accumulator,
              vfull n cfg.initial_accumulator⟩ } :: (Yogi.init_group cfg rest).2)) ∧
    (∀ (cfg : Yogi.Config) (t : ℕ) {n : ℕ} (pr : Yogi.Param n) (g : Vec n),
      pr.grad = .dense g → pr.st = none →
      (Yogi.handleParam cfg t pr).1 = some OptError.keyError ∧
      (Yogi.handleParam cfg t pr).2.st = none) := by
  refine ⟨?_, ?_, ?_, ?_⟩
  · intro cfg t lo hi n pr g hg hst
    obtain ⟨⟨p', g', st'⟩, hr⟩ := AdaBound.update_fresh_ok cfg t lo hi pr.p g
    exact ⟨p', g', st', hr, by simp [AdaBound.handleParam, hg, hst, hr]⟩
  · intro cfg t lo hi n pr g s p' g' st' hg hst hr
    simp [AdaBound.handleParam, hg, hst, hr]
  · intro cfg n pr rest g hg hst
    simp [Yogi.init_group, hg, hst]
  · intro cfg t n pr g hg hst
    simp [Yogi.handleParam, hg, hst]

/-- Concrete Yogi parameter, gradient defined, no state entry yet, for the
C4 witness. -/
def c4wpr : Yogi.Param 1 := ⟨vfull 1 1, Grad.dense (vfull 1 1), none⟩

theorem c4_state_creation_amended_witness :
    Yogi.init_group c4cfg [c4wpr] =
      ((Yogi.init_group c4cfg ([] : List (Yogi.Param 1))).1,
        { c4wpr with st := some ⟨vfull 1 c4cfg.initial_accumulator,
            vfull 1 c4cfg.initial_accumulator⟩ } ::
          (Yogi.init_group c4cfg ([] : List (Yogi.Param 1))).2) ∧
    (Yogi.handleParam c4cfg 2 c4wpr).1 = some OptError.keyError :=
  ⟨c4_state_creation_amended.2.2.1 c4cfg c4wpr [] (vfull 1 1) rfl rfl,
   (c4_state_creation_amended.2.2.2 c4cfg 2 c4wpr (vfull 1 1) rfl rfl).1⟩

/-! ## Claim C5 -/

/-- Every existing AdaBound state entry has an elementwise non-negative
second-moment accumulator. -/
def AdaBound.SecondMomentsNonneg {n : ℕ} (o : Opt n) : Prop :=
  ∀ pr ∈ o.params, ∀ s, pr.st = some s → ∀ i, 0 ≤ s.exp_avg_sq i

/-- Every existing Yogi state entry has an elementwise non-negative
second-moment accumulator. -/
def Yogi.SecondMomentsNonneg {n : ℕ} (o : Opt n) : Prop :=
  ∀ pr ∈ o.params, ∀ s, pr.st = some s → ∀ i, 0 ≤ s.exp_avg_sq i

/-- External gradient (re)assignment between AdaBound step calls: the group,
counter, parameter values and state entries are untouched; only the gradient
slots may change. -/
def AdaBound.SameButGrads {n : ℕ} (o o' : Opt n) : Prop :=
  o'.cfg = o.cfg ∧ o'.base_lr = o.base_lr ∧ o'.stepCount = o.stepCount ∧
  List.Forall₂ (fun a b => b.p = a.p ∧ b.st = a.st) o.params o'.params

/-- External gradient (re)assignment between Yogi step calls. -/
def Yogi.SameButGrads {n : ℕ} (o o' : Opt n) : Prop :=
  o'.cfg = o.cfg ∧ o'.stepCount = o.stepCount ∧
  List.Forall₂ (fun a b => b.p = a.p ∧ b.st = a.st) o.params o'.params

/-- States reachable from an AdaBound optimizer by alternating external
gradient assignment and step calls. -/
inductive AdaBound.Reach {n : ℕ} : Opt n → Opt n → Prop where
  | refl (o : Opt n) : Reach o o
  | assign {o₀ o o' : Opt n} : Reach o₀ o → SameButGrads o o' → Reach o₀ o'
  | next {o₀ o : Opt n} : Reach o₀ o → Reach o₀ (step o).2

/-- States reachable from a Yogi optimizer by alternating external gradient
assignment and step calls. -/
inductive Yogi.Reach {n : ℕ} : Opt n → Opt n → Prop where
  | refl (o : Opt n) : Reach o o
  | assign {o₀ o o' : Opt n} : Reach o₀ o → SameButGrads o o' → Reach o₀ o'
  | next {o₀ o : Opt n} : Reach o₀ o → Reach o₀ (step o).2

/-- Elements of the right list of a `Forall₂` come from related elements of
the left list. -/
lemma forall₂_mem_right {α β : Type} {R : α → β → Prop} {l₁ : List α} {l₂ : List β}
    (h : List.Forall₂ R l₁ l₂) : ∀ b ∈ l₂, ∃ a ∈ l₁, R a b := by
  induction h with
  | nil => simp
  | cons hab _ ih =>
    intro b hb
    rcases List.mem_cons.mp hb with rfl | hb
    · exact ⟨_, List.mem_cons_self _ _, hab⟩
    · rcases ih b hb with ⟨a, ha, hr⟩
      exact ⟨a, List.mem_cons_of_mem _ ha, hr⟩

/-- The convex second-moment recurrence of AdaBound preserves elementwise
non-negativity when `0 ≤ β ≤ 1`. -/
lemma vaddcmul_sq_nonneg {n : ℕ} (v g : Vec n) (β : ℝ) (h0 : 0 ≤ β) (h1 : β ≤ 1)
    (hv : ∀ i, 0 ≤ v i) : ∀ i, 0 ≤ vaddcmul (vmuls v β) g g (1 - β) i := by
  intro i
  simp only [vaddcmul, vmuls]
  nlinarith [hv i, mul_self_nonneg (g i)]

/-- A successful AdaBound update writes exactly the convex recurrence into
the second-moment accumulator. -/
lemma AdaBound.update_ok_exp_avg_sq (cfg : Config) (t : ℕ) (lo hi : ℝ) {n : ℕ}
    (p g : Vec n) (st : State n) (p' g' : Vec n) (st' : State n)
    (h : update cfg t lo hi p g st = .ok (p', g', st')) :
    st'.exp_avg_sq =
      vaddcmul (vmuls st.exp_avg_sq cfg.beta2) (applyDecay cfg p g).2
        (applyDecay cfg p g).2 (1 - cfg.beta2) := by
  cases hab : cfg.ams_bound with
  | false =>
    simp only [update, hab, Bool.false_eq_true, if_false] at h
    obtain ⟨-, -, h3⟩ := (by simpa using h : _ ∧ _ ∧ _)
    rw [← h3]
  | true =>
    cases hmx : st.max_exp_avg_sq with
    | none => simp [update, hab, hmx] at h
    | some mx =>
      simp only [update, hab, hmx, if_true] at h
      obtain ⟨-, -, h3⟩ := (by simpa using h : _ ∧ _ ∧ _)
      rw [← h3]

/-- Per-parameter preservation of second-moment non-negativity by an
AdaBound parameter pass. -/
lemma AdaBound.handleParam_nonneg (cfg : Config) (t : ℕ) (lo hi : ℝ) {n : ℕ}
    (pr : Param n) (h0 : 0 ≤ cfg.beta2) (h1 : cfg.beta2 ≤ 1)
    (hpr : ∀ s, pr.st = some s → ∀ i, 0 ≤ s.exp_avg_sq i) :
    ∀ s, ((handleParam cfg t lo hi pr).2).st = some s → ∀ i, 0 ≤ s.exp_avg_sq i := by
  cases hg : pr.grad with
  | absent => simpa [handleParam, hg] using hpr
  | sparse => simpa [handleParam, hg] using hpr
  | dense g =>
    cases hst : pr.st with
    | none =>
      cases hup : update cfg t lo hi pr.p g (freshState cfg n) with
      | error e =>
        intro s hs i
        simp [handleParam, hg, hst, hup] at hs
      | ok r =>
        obtain ⟨p', g', st'⟩ := r
        intro s hs i
        simp [handleParam, hg, hst, hup] at hs
        subst hs
        rw [update_ok_exp_avg_sq cfg t lo hi pr.p g (freshState cfg n) p' g' st' hup]
        exact vaddcmul_sq_nonneg _ _ _ h0 h1 (fun j => by simp [freshState, vzero]) i
    | some s0 =>
      cases hup : update cfg t lo hi pr.p g s0 with
      | error e =>
        intro s hs i
        simp [handleParam, hg, hst, hup] at hs
        exact hpr s (hst.trans (by rw [hs])) i
      | ok r =>
        obtain ⟨p', g', st'⟩ := r
        intro s hs i
        simp [handleParam, hg, hst, hup] at hs
        subst hs
        rw [update_ok_exp_avg_sq cfg t lo hi pr.p g s0 p' g' st' hup]
        exact vaddcmul_sq_nonneg _ _ _ h0 h1 (hpr s0 hst) i

/-- Preservation of second-moment non-negativity by the AdaBound parameter
loop. -/
lemma AdaBound.loop_nonneg (cfg : Config) (t : ℕ) (lo hi : ℝ) {n : ℕ}
    (h0 : 0 ≤ cfg.beta2) (h1 : cfg.beta2 ≤ 1) :
    ∀ l : List (Param n),
      (∀ pr ∈ l, ∀ s, pr.st = some s → ∀ i, 0 ≤ s.exp_avg_sq i) →
      ∀ pr' ∈ (loop cfg t lo hi l).2, ∀ s, pr'.st = some s → ∀ i, 0 ≤ s.exp_avg_sq i := by
  intro l
  induction l with
  | nil => intro _ pr' h; simp [loop] at h
  | cons pr rest ih =>
    intro hl pr' hmem
    have hpr := handleParam_nonneg cfg t lo hi pr h0 h1 (hl pr (List.mem_cons_self _ _))
    rcases hh : handleParam cfg t lo hi pr with ⟨e, prh⟩
    rw [hh] at hpr
    cases e with
    | some e0 =>
      simp only [loop, hh] at hmem
      rcases List.mem_cons.mp hmem with rfl | hmem'
      · exact hpr
      · exact hl pr' (List.mem_cons_of_mem _ hmem')
    | none =>
      simp only [loop, hh] at hmem
      rcases List.mem_cons.mp hmem with rfl | hmem'
      · exact hpr
      · exact ih (fun q hq => hl q (List.mem_cons_of_mem _ hq)) pr' hmem'

/-- Preservation of second-moment non-negativity by one AdaBound step. -/
lemma AdaBound.step_nonneg {n : ℕ} (o : Opt n) (h0 : 0 ≤ o.cfg.beta2)
    (h1 : o.cfg.beta2 ≤ 1) (h : SecondMomentsNonneg o) :
    SecondMomentsNonneg (step o).2 := by
  intro pr' hmem s hs i
  exact loop_nonneg o.cfg _ _ _ h0 h1 o.params h pr' hmem s hs i

/-- The group hyperparameters never change along a reachability chain. -/
lemma AdaBound.reach_cfg {n : ℕ} {o₀ o : Opt n} (h : Reach o₀ o) : o.cfg = o₀.cfg := by
  induction h with
  | refl => rfl
  | assign _ hsg ih => exact hsg.1.trans ih
  | next _ ih => exact ih

/-- Invariance of second-moment non-negativity along AdaBound reachability. -/
lemma AdaBound.reach_nonneg {n : ℕ} {o₀ o : Opt n} (h0 : 0 ≤ o₀.cfg.beta2)
    (h1 : o₀.cfg.beta2 ≤ 1) (hinv : SecondMomentsNonneg o₀) (h : Reach o₀ o) :
    SecondMomentsNonneg o := by
  induction h with
  | refl => exact hinv
  | assign _ hsg ih =>
    intro pr' hmem s hs i
    rcases forall₂_mem_right hsg.2.2.2 pr' hmem with ⟨a, ha, _, hstq⟩
    exact ih a ha s (hstq.symm.trans hs) i
  | next hr ih =>
    exact step_nonneg _ (reach_cfg hr ▸ h0) (reach_cfg hr ▸ h1) ih

/-- The signed second-moment increment of Yogi preserves elementwise
non-negativity when `0 ≤ β ≤ 1`: a negative sign adds a non-negative
quantity, a positive sign subtracts at most the gap to the squared
gradient. -/
lemma vaddcmul_sign_nonneg {n : ℕ} (v g : Vec n) (β : ℝ) (h0 : 0 ≤ β) (h1 : β ≤ 1)
    (hv : ∀ i, 0 ≤ v i) :
    ∀ i, 0 ≤ vaddcmul v (vsgn (vsub v (vmul2 g g))) (vmul2 g g) (-(1 - β)) i := by
  intro i
  simp only [vaddcmul, vsgn, vsub, vmul2]
  rcases lt_trichotomy (v i - g i * g i) 0 with hlt | heq | hgt
  · rw [Real.sign_of_neg hlt]
    nlinarith [hv i, mul_self_nonneg (g i)]
  · rw [heq, Real.sign_zero]
    simpa using hv i
  · rw [Real.sign_of_pos hgt]
    nlinarith [hv i, mul_self_nonneg (g i), mul_nonneg h0 (mul_self_nonneg (g i))]

/-- Per-parameter preservation of second-moment non-negativity by a Yogi
parameter pass. -/
lemma Yogi.handleParam_nonneg_yogi (cfg : Config) (t : ℕ) {n : ℕ} (pr : Param n)
    (h0 : 0 ≤ cfg.beta2) (h1 : cfg.beta2 ≤ 1)
    (hpr : ∀ s, pr.st = some s → ∀ i, 0 ≤ s.exp_avg_sq i) :
    ∀ s, ((handleParam cfg t pr).2).st = some s → ∀ i, 0 ≤ s.exp_avg_sq i := by
  cases hg : pr.grad with
  | absent => simpa [handleParam, hg] using hpr
  | sparse => simpa [handleParam, hg] using hpr
  | dense g0 =>
    cases hst : pr.st with
    | none =>
      intro s hs i
      simp [handleParam, hg, hst] at hs
    | some s0 =>
      intro s hs i
      simp [handleParam, hg, hst] at hs
      subst hs
      have hx := vaddcmul_sign_nonneg s0.exp_avg_sq
        ((apply_weight_decay pr.p (maximize_gradient g0 cfg.maximize) cfg.lr cfg.weight_decay
          cfg.weight_decouple cfg.fixed_decay).2) cfg.beta2 h0 h1 (hpr s0 hst) i
      simpa [neg_sub] using hx

/-- Preservation of second-moment non-negativity by `Yogi.init_group`. -/
lemma Yogi.init_group_nonneg (cfg : Config) {n : ℕ}
    (hia : 0 ≤ cfg.initial_accumulator) :
    ∀ l : List (Param n),
      (∀ pr ∈ l, ∀ s, pr.st = some s → ∀ i, 0 ≤ s.exp_avg_sq i) →
      ∀ pr' ∈ (init_group cfg l).2, ∀ s, pr'.st = some s → ∀ i, 0 ≤ s.exp_avg_sq i := by
  intro l
  induction l with
  | nil => intro _ pr' h; simp [init_group] at h
  | cons pr rest ih =>
    intro hl pr' hmem
    cases hg : pr.grad with
    | absent =>
      simp only [init_group, hg] at hmem
      rcases List.mem_cons.mp hmem with rfl | hmem'
      · exact hl pr' (List.mem_cons_self _ _)
      · exact ih (fun q hq => hl q (List.mem_cons_of_mem _ hq)) pr' hmem'
    | sparse =>
      simp only [init_group, hg] at hmem
      rcases List.mem_cons.mp hmem with rfl | hmem'
      · exact hl pr' (List.mem_cons_self _ _)
      · exact hl pr' (List.mem_cons_of_mem _ hmem')
    | dense g =>
      cases hst : pr.st with
      | some s0 =>
        simp only [init_group, hg, hst] at hmem
        rcases List.mem_cons.mp hmem with rfl | hmem'
        · exact hl pr' (List.mem_cons_self _ _)
        · exact ih (fun q hq => hl q (List.mem_cons_of_mem _ hq)) pr' hmem'
      | none =>
        simp only [init_group, hg, hst] at hmem
        rcases List.mem_cons.mp hmem with rfl | hmem'
        · intro s hs i
          simp at hs
          subst hs
          simp [vfull]
          exact hia
        · exact ih (fun q hq => hl q (List.mem_cons_of_mem _ hq)) pr' hmem'

/-- Preservation of second-moment non-negativity by the Yogi parameter
loop. -/
lemma Yogi.loop_nonneg_yogi (cfg : Config) (t : ℕ) {n : ℕ}
    (h0 : 0 ≤ cfg.beta2) (h1 : cfg.beta2 ≤ 1) :
    ∀ l : List (Param n),
      (∀ pr ∈ l, ∀ s, pr.st = some s → ∀ i, 0 ≤ s.exp_avg_sq i) →
      ∀ pr' ∈ (loop cfg t l).2, ∀ s, pr'.st = some s → ∀ i, 0 ≤ s.exp_avg_sq i := by
  intro l
  induction l with
  | nil => intro _ pr' h; simp [loop] at h
  | cons pr rest ih =>
    intro hl pr' hmem
    have hpr := handleParam_nonneg_yogi cfg t pr h0 h1 (hl pr (List.mem_cons_self _ _))
    rcases hh : handleParam cfg t pr with ⟨e, prh⟩
    rw [hh] at hpr
    cases e with
    | some e0 =>
      simp only [loop, hh] at hmem
      rcases List.mem_cons.mp hmem with rfl | hmem'
      · exact hpr
      · exact hl pr' (List.mem_cons_of_mem _ hmem')
    | none =>
      simp only [loop, hh] at hmem
      rcases List.mem_cons.mp hmem with rfl | hmem'
      · exact hpr
      · exact ih (fun q hq => hl q (List.mem_cons_of_mem _ hq)) pr' hmem'

/-- Preservation of second-moment non-negativity by one Yogi step. -/
lemma Yogi.step_nonneg_yogi {n : ℕ} (o : Opt n) (h0 : 0 ≤ o.cfg.beta2)
    (h1 : o.cfg.beta2 ≤ 1) (hia : 0 ≤ o.cfg.initial_accumulator)
    (h : SecondMomentsNonneg o) : SecondMomentsNonneg (step o).2 := by
  cases hsc : o.stepCount with
  | none =>
    have hini := init_group_nonneg o.cfg hia o.params h
    cases he : (init_group o.cfg o.params).1 with
    | some e =>
      intro pr' hmem s hs i
      simp only [step, hsc, he] at hmem
      exact hini pr' hmem s hs i
    | none =>
      intro pr' hmem s hs i
      simp only [step, hsc, he] at hmem
      exact loop_nonneg_yogi o.cfg 1 h0 h1 _ hini pr' hmem s hs i
  | some sc =>
    intro pr' hmem s hs i
    simp only [step, hsc] at hmem
    exact loop_nonneg_yogi o.cfg (sc + 1) h0 h1 o.params h pr' hmem s hs i

/-- A Yogi step call leaves the group hyperparameters untouched. -/
lemma Yogi.step_cfg {n : ℕ} (o : Opt n) : (step o).2.cfg = o.cfg := by
  cases hsc : o.stepCount with
  | none =>
    cases he : (init_group o.cfg o.params).1 with
    | some e => simp [step, hsc, he]
    | none => simp [step, hsc, he]
  | some sc => simp [step, hsc]

/-- The group hyperparameters never change along a Yogi reachability
chain. -/
lemma Yogi.reach_cfg_yogi {n : ℕ} {o₀ o : Opt n} (h : Reach o₀ o) : o.cfg = o₀.cfg := by
  induction h with
  | refl => rfl
  | assign _ hsg ih => exact hsg.1.trans ih
  | next _ ih => exact (step_cfg _).trans ih

/-- Invariance of second-moment non-negativity along Yogi reachability. -/
lemma Yogi.reach_nonneg_yogi {n : ℕ} {o₀ o : Opt n} (h0 : 0 ≤ o₀.cfg.beta2)
    (h1 : o₀.cfg.beta2 ≤ 1) (hia : 0 ≤ o₀.cfg.initial_accumulator)
    (hinv : SecondMomentsNonneg o₀) (h : Reach o₀ o) : SecondMomentsNonneg o := by
  induction h with
  | refl => exact hinv
  | assign _ hsg ih =>
    intro pr' hmem s hs i
    rcases forall₂_mem_right hsg.2.2 pr' hmem with ⟨a, ha, _, hstq⟩
    exact ih a ha s (hstq.symm.trans hs) i
  | next hr ih =>
    exact step_nonneg_yogi _ (reach_cfg_yogi hr ▸ h0) (reach_cfg_yogi hr ▸ h1) (reach_cfg_yogi hr ▸ hia) ih

/-- Concrete Yogi optimizer constructed with a negative (unvalidated)
`initial_accumulator`, a gradient of zero, before its first step call. -/
def c5yneg : Yogi.Opt 1 :=
  ⟨⟨1e-2, 0.9, 0.999, -1, 0, true, false, 1e-3, false, false⟩, none,
    [⟨vfull 1 1, Grad.dense (vfull 1 0), none⟩]⟩

/-- The second-moment accumulator of parameter `k` at element `i`, when its
state entry exists. -/
def Yogi.secondMomentAt {n : ℕ} (o : Opt n) (k : ℕ) (i : Fin n) : Option ℝ :=
  match o.params.get? k with
  | some pr =>
    match pr.st with
    | some s => some (s.exp_avg_sq i)
    | none => none
  | none => none

/-- Claim C5 counterexample: `initial_accumulator` is not validated, so a
Yogi optimizer constructed with `initial_accumulator = -1` reaches — after a
single step call with a zero gradient — a state whose second-moment
accumulator is `-1 < 0`. -/
theorem c5_negative_initial_accumulator_cex :
    Yogi.secondMomentAt (Yogi.step c5yneg).2 0 0 = some (-1) ∧ ((-1 : ℝ) < 0) := by
  constructor
  · simp [Yogi.step, Yogi.init_group, Yogi.loop, Yogi.handleParam, Yogi.secondMomentAt,
      c5yneg, maximize_gradient_false, apply_weight_decay_zero,
      vaddcmul, vsgn, vsub, vmul2, vfull]
  · norm_num

/-- Claim C5 as amended: with the validated moment-decay range `β2 ∈ [0, 1]`
and — for Yogi — a non-negative `initial_accumulator` (the parameter is not
validated; its default `1e-6` qualifies), every optimizer state reachable
from a state whose second-moment accumulators are elementwise non-negative
(in particular a freshly constructed one, which has no state entries) again
has all second-moment accumulators elementwise non-negative, for every
sequence of gradient assignments and step calls. -/
theorem c5_second_moment_nonneg_amended :
    (∀ {n : ℕ} (o₀ o : AdaBound.Opt n), 0 ≤ o₀.cfg.beta2 → o₀.cfg.beta2 ≤ 1 →
      AdaBound.SecondMomentsNonneg o₀ → AdaBound.Reach o₀ o →
      AdaBound.SecondMomentsNonneg o) ∧
    (∀ {n : ℕ} (o₀ o : Yogi.Opt n), 0 ≤ o₀.cfg.beta2 → o₀.cfg.beta2 ≤ 1 →
      0 ≤ o₀.cfg.initial_accumulator → Yogi.SecondMomentsNonneg o₀ →
      Yogi.Reach o₀ o → Yogi.SecondMomentsNonneg o) :=
  ⟨fun _ _ h0 h1 hinv h => AdaBound.reach_nonneg h0 h1 hinv h,
   fun _ _ h0 h1 hia hinv h => Yogi.reach_nonneg_yogi h0 h1 hia hinv h⟩

/-- Concrete freshly constructed AdaBound optimizer for the C5 witness. -/
def c5abw : AdaBound.Opt 1 :=
  ⟨⟨1e-3, 0.9, 0.999, 1e-1, 1e-3, 0, true, false, false, false, 1e-8⟩, 1e-3, none,
    [⟨vfull 1 1, Grad.dense (vfull 1 1), none⟩]⟩

/-- Concrete freshly constructed Yogi optimizer for the C5 witness. -/
def c5yw : Yogi.Opt 1 :=
  ⟨⟨1e-2, 0.9, 0.999, 1e-6, 0, true, false, 1e-3, false, false⟩, none,
    [⟨vfull 1 1, Grad.dense (vfull 1 1), none⟩]⟩

theorem c5_second_moment_nonneg_amended_witness :
    AdaBound.SecondMomentsNonneg (AdaBound.step c5abw).2 ∧
    Yogi.SecondMomentsNonneg (Yogi.step c5yw).2 :=
  ⟨c5_second_moment_nonneg_amended.1 c5abw _ (by norm_num [c5abw]) (by norm_num [c5abw])
      (by rintro pr hpr s hs i; simp [c5abw] at hpr; subst hpr; simp at hs)
      (AdaBound.Reach.next (AdaBound.Reach.refl _)),
   c5_second_moment_nonneg_amended.2 c5yw _ (by norm_num [c5yw]) (by norm_num [c5yw])
      (by norm_num [c5yw])
      (by rintro pr hpr s hs i; simp [c5yw] at hpr; subst hpr; simp at hs)
      (Yogi.Reach.next (Yogi.Reach.refl _))⟩

/-! ## Claim C6 -/

/-- Concrete AdaBound configuration with `γ = 1 > 0` but a negative
`final_lr` (unvalidated at construction). -/
def c6cfg : AdaBound.Config := ⟨1, 0.9, 0.999, -1, 1, 0, true, false, false, false, 1e-8⟩

/-- Claim C6 counterexample: with `γ = 1 > 0` and `final_lr = -1` (accepted
by construction — only `lr`, betas, `weight_decay`, `eps` are validated), the
lower bound strictly decreases from step 1 to step 2, refuting the claimed
monotone non-decrease for all `γ > 0`. -/
theorem c6_negative_final_lr_cex :
    0 < c6cfg.gamma ∧ AdaBound.lowerBound c6cfg 1 2 < AdaBound.lowerBound c6cfg 1 1 := by
  constructor
  · norm_num [c6cfg]
  · norm_num [AdaBound.lowerBound, AdaBound.finalLr, c6cfg]

/-- Claim C6 as amended: additionally assuming the effective final learning
rate `final_lr · lr / base_lr` is non-negative (true for the defaults; the
sign of `final_lr` is not validated), for `γ > 0`: the lower bound is
monotonically non-decreasing in the step count, the upper bound
monotonically non-increasing, both converge to the effective final learning
rate, and the clamped per-element step size always lies between the two
bounds. -/
theorem c6_bounds_amended (cfg : AdaBound.Config) (base_lr : ℝ)
    (hγ : 0 < cfg.gamma) (hF : 0 ≤ AdaBound.finalLr cfg base_lr) :
    (∀ t : ℕ, 1 ≤ t →
      AdaBound.lowerBound cfg base_lr t ≤ AdaBound.lowerBound cfg base_lr (t + 1)) ∧
    (∀ t : ℕ, 1 ≤ t →
      AdaBound.upperBound cfg base_lr (t + 1) ≤ AdaBound.upperBound cfg base_lr t) ∧
    Tendsto (fun t : ℕ => AdaBound.lowerBound cfg base_lr t) atTop
      (nhds (AdaBound.finalLr cfg base_lr)) ∧
    Tendsto (fun t : ℕ => AdaBound.upperBound cfg base_lr t) atTop
      (nhds (AdaBound.finalLr cfg base_lr)) ∧
    (∀ (t : ℕ) {n : ℕ} (a : Vec n) (i : Fin n), 1 ≤ t →
      AdaBound.lowerBound cfg base_lr t ≤
        vclamp a (AdaBound.lowerBound cfg base_lr t) (AdaBound.upperBound cfg base_lr t) i ∧
      vclamp a (AdaBound.lowerBound cfg base_lr t) (AdaBound.upperBound cfg base_lr t) i ≤
        AdaBound.upperBound cfg base_lr t) := by
  have hdenom : ∀ t : ℕ, 1 ≤ t → 0 < cfg.gamma * t := by
    intro t ht
    have htR : (1 : ℝ) ≤ (t : ℕ) := by exact_mod_cast ht
    nlinarith
  refine ⟨?_, ?_, ?_, ?_, ?_⟩
  · intro t ht
    have h1 : 0 < cfg.gamma * t + 1 := by linarith [hdenom t ht]
    have h2 : 0 < cfg.gamma * (t + 1 : ℕ) + 1 := by
      push_cast
      nlinarith [hdenom t ht]
    unfold AdaBound.lowerBound
    apply mul_le_mul_of_nonneg_left ?_ hF
    have hle : 1 / (cfg.gamma * (t + 1 : ℕ) + 1) ≤ 1 / (cfg.gamma * t + 1) := by
      apply one_div_le_one_div_of_le h1
      push_cast
      nlinarith
    linarith
  · intro t ht
    have h1 : 0 < cfg.gamma * t := hdenom t ht
    have h2 : 0 < cfg.gamma * (t + 1 : ℕ) := by
      push_cast
      nlinarith
    unfold AdaBound.upperBound
    apply mul_le_mul_of_nonneg_left ?_ hF
    have hle : 1 / (cfg.gamma * (t + 1 : ℕ)) ≤ 1 / (cfg.gamma * t) := by
      apply one_div_le_one_div_of_le h1
      push_cast
      nlinarith
    linarith
  · have hTop : Tendsto (fun t : ℕ => cfg.gamma * t + 1) atTop atTop := by
      apply Filter.tendsto_atTop_add_const_right
      exact Filter.Tendsto.const_mul_atTop hγ tendsto_natCast_atTop_atTop
    have h0 : Tendsto (fun t : ℕ => 1 / (cfg.gamma * t + 1)) atTop (nhds 0) := by
      simpa [one_div] using hTop.inv_tendsto_atTop
    have := ((tendsto_const_nhds : Tendsto (fun _ : ℕ => (1 : ℝ)) atTop (nhds 1)).sub
      h0).const_mul (AdaBound.finalLr cfg base_lr)
    simpa [AdaBound.lowerBound] using this
  · have hTop : Tendsto (fun t : ℕ => cfg.gamma * t) atTop atTop :=
      Filter.Tendsto.const_mul_atTop hγ tendsto_natCast_atTop_atTop
    have h0 : Tendsto (fun t : ℕ => 1 / (cfg.gamma * t)) atTop (nhds 0) := by
      have h := hTop.inv_tendsto_atTop
      have he : (fun t : ℕ => cfg.gamma * (t : ℝ))⁻¹ = fun t : ℕ => 1 / (cfg.gamma * t) := by
        funext t
        simp [one_div]
      rw [he] at h
      exact h
    have := ((tendsto_const_nhds : Tendsto (fun _ : ℕ => (1 : ℝ)) atTop (nhds 1)).add
      h0).const_mul (AdaBound.finalLr cfg base_lr)
    simpa [AdaBound.upperBound] using this
  · intro t n a i ht
    have h1 : 0 < cfg.gamma * t + 1 := by linarith [hdenom t ht]
    have h2 : 0 < cfg.gamma * t := hdenom t ht
    have hd1 : 0 ≤ 1 / (cfg.gamma * t + 1) := by positivity
    have hd2 : 0 ≤ 1 / (cfg.gamma * t) := by positivity
    have hlohi : AdaBound.lowerBound cfg base_lr t ≤ AdaBound.upperBound cfg base_lr t := by
      unfold AdaBound.lowerBound AdaBound.upperBound
      apply mul_le_mul_of_nonneg_left ?_ hF
      linarith
    constructor
    · simp only [vclamp]
      exact le_min (le_max_right _ _) hlohi
    · simp only [vclamp]
      exact min_le_right _ _

/-- Concrete AdaBound configuration with the defaults (`γ = 1e-3`,
`final_lr = 0.1`) for the C6 witness. -/
def c6wcfg : AdaBound.Config := ⟨1e-3, 0.9, 0.999, 1e-1, 1e-3, 0, true, false, false, false, 1e-8⟩

theorem c6_bounds_amended_witness :
    AdaBound.lowerBound c6wcfg 1e-3 1 ≤ AdaBound.lowerBound c6wcfg 1e-3 2 ∧
    AdaBound.upperBound c6wcfg 1e-3 2 ≤ AdaBound.upperBound c6wcfg 1e-3 1 :=
  ⟨(c6_bounds_amended c6wcfg 1e-3 (by norm_num [c6wcfg])
      (by norm_num [AdaBound.finalLr, c6wcfg])).1 1 (le_refl 1),
   (c6_bounds_amended c6wcfg 1e-3 (by norm_num [c6wcfg])
      (by norm_num [AdaBound.finalLr, c6wcfg])).2.1 1 (le_refl 1)⟩

/-! ## Claim C7 -/

/-- Claim C7: the weight-decay policy — AdaBound's inline version and the
spec-modelled shared helper used by Yogi — leaves parameter and gradient
values unchanged when `weight_decay = 0`; with `decouple` it multiplies the
parameter by `1 − weight_decay·(1 if fixed_decay else lr)` and leaves the
gradient untouched; otherwise it increments the gradient by
`weight_decay·parameter`; and with `decouple`, `fixed_decay`,
`weight_decay = 0.1` the parameter is scaled by exactly `0.9`, for every
learning rate. -/
theorem c7_weight_decay_policy :
    (∀ (cfg : AdaBound.Config) {n : ℕ} (p g : Vec n), cfg.weight_decay = 0 →
      AdaBound.applyDecay cfg p g = (p, g)) ∧
    (∀ (cfg : AdaBound.Config) {n : ℕ} (p g : Vec n), cfg.weight_decouple = true →
      AdaBound.applyDecay cfg p g =
        (vmuls p (1 - cfg.weight_decay * (if cfg.fixed_decay then 1 else cfg.lr)), g)) ∧
    (∀ (cfg : AdaBound.Config) {n : ℕ} (p g : Vec n), cfg.weight_decouple = false →
      0 < cfg.weight_decay →
      AdaBound.applyDecay cfg p g = (p, fun i => g i + cfg.weight_decay * p i)) ∧
    (∀ (cfg : AdaBound.Config) {n : ℕ} (p g : Vec n), cfg.weight_decouple = true →
      cfg.fixed_decay = true → cfg.weight_decay = 0.1 →
      (AdaBound.applyDecay cfg p g).1 = fun i => 0.9 * p i) ∧
    (∀ {n : ℕ} (p g : Vec n) (lr : ℝ) (dec fix : Bool),
      apply_weight_decay p g lr 0 dec fix = (p, g)) ∧
    (∀ {n : ℕ} (p g : Vec n) (lr wd : ℝ) (fix : Bool),
      apply_weight_decay p g lr wd true fix =
        (vmuls p (1 - wd * (if fix then 1 else lr)), g)) ∧
    (∀ {n : ℕ} (p g : Vec n) (lr wd : ℝ) (fix : Bool), wd ≠ 0 →
      apply_weight_decay p g lr wd false fix = (p, fun i => g i + wd * p i)) := by
  refine ⟨?_, ?_, ?_, ?_, ?_, ?_, ?_⟩
  · intro cfg n p g hwd
    exact AdaBound.applyDecay_wd_zero cfg hwd p g
  · intro cfg n p g hdec
    simp [AdaBound.applyDecay, hdec]
  · intro cfg n p g hdec hwd
    simp only [AdaBound.applyDecay, hdec, Bool.false_eq_true, if_false, if_pos hwd]
    refine Prod.ext rfl ?_
    funext i
    simp only [vaddAlpha]
    ring
  · intro cfg n p g hdec hfix hwd
    simp only [AdaBound.applyDecay, hdec, hfix, hwd, if_true]
    funext i
    simp only [vmuls]
    norm_num
    ring
  · intro n p g lr dec fix
    exact apply_weight_decay_zero p g lr dec fix
  · intro n p g lr wd fix
    by_cases hwd : wd = 0
    · subst hwd
      rw [apply_weight_decay_zero]
      refine Prod.ext ?_ rfl
      funext i
      simp [vmuls]
    · simp only [apply_weight_decay, if_neg hwd, if_true]
  · intro n p g lr wd fix hwd
    simp only [apply_weight_decay, if_neg hwd, Bool.false_eq_true, if_false]
    refine Prod.ext rfl ?_
    funext i
    simp only [vaddAlpha]
    ring

/-- Concrete AdaBound configuration with decoupled fixed decay 0.1 for the
C7 witness. -/
def c7cfg : AdaBound.Config := ⟨1e-3, 0.9, 0.999, 1e-1, 1e-3, 0.1, true, true, false, false, 1e-8⟩

theorem c7_weight_decay_policy_witness :
    (AdaBound.applyDecay c7cfg (vfull 1 2) (vfull 1 1)).1 = (fun i => 0.9 * vfull 1 2 i) ∧
    apply_weight_decay (vfull 1 2) (vfull 1 1) 1e-3 0 true false = (vfull 1 2, vfull 1 1) :=
  ⟨c7_weight_decay_policy.2.2.2.1 c7cfg (vfull 1 2) (vfull 1 1) rfl rfl rfl,
   c7_weight_decay_policy.2.2.2.2.1 (vfull 1 2) (vfull 1 1) 1e-3 true false⟩

/-! ## Claim C8 -/

/-- AdaBound's parameter loop is the identity (and raises nothing) when
every gradient slot is absent. -/
lemma AdaBound.loop_absent (cfg : Config) (t : ℕ) (lo hi : ℝ) {n : ℕ}
    (l : List (Param n)) (h : ∀ pr ∈ l, pr.grad = Grad.absent) :
    loop cfg t lo hi l = (none, l) := by
  induction l with
  | nil => rfl
  | cons pr rest ih =>
    have hg := h pr (List.mem_cons_self _ _)
    have hr := ih fun q hq => h q (List.mem_cons_of_mem _ hq)
    simp [loop, handleParam, hg, hr]

/-- Concrete AdaBound optimizer (one parameter, gradient always absent) used
to exercise `reset` between step calls. -/
def c8opt : AdaBound.Opt 1 :=
  ⟨⟨1e-3, 0.9, 0.999, 1e-1, 1e-3, 0, true, false, false, false, 1e-8⟩, 1e-3, none,
    [⟨vfull 1 1, Grad.absent, none⟩]⟩

/-- Claim C8 (code bug evidence): `reset` writes `state['step'] = 0` — a
per-parameter key that `step` never reads — and zeroes the accumulators, but
leaves the group dictionary untouched, including `group['step']`; hence after
two step calls and a `reset`, the next step call runs at group step count 3,
not 1. -/
theorem c8_reset_counter :
    (∀ {n : ℕ} (o : AdaBound.Opt n),
      (AdaBound.reset o).stepCount = o.stepCount ∧
      (AdaBound.reset o).cfg = o.cfg ∧
      (AdaBound.reset o).base_lr = o.base_lr) ∧
    (∀ {n : ℕ} (o : AdaBound.Opt n), ∀ pr ∈ (AdaBound.reset o).params,
      ∃ s, pr.st = some s ∧ s.state_step = some 0 ∧ s.exp_avg = vzero ∧
        s.exp_avg_sq = vzero) ∧
    ((AdaBound.step (AdaBound.reset (AdaBound.step (AdaBound.step c8opt).2).2)).2).stepCount
      = some 3 := by
  refine ⟨fun o => ⟨rfl, rfl, rfl⟩, ?_, ?_⟩
  · intro n o pr hmem
    rcases List.mem_map.mp hmem with ⟨a, _, rfl⟩
    exact ⟨_, rfl, rfl, rfl, rfl⟩
  · rfl

/-- The parameter of `c8opt` after `reset`. -/
def c8wpr : AdaBound.Param 1 := ⟨vfull 1 1, Grad.absent, some ⟨vzero, vzero, none, some 0⟩⟩

theorem c8_reset_counter_witness :
    ∃ s, c8wpr.st = some s ∧ s.state_step = some 0 ∧ s.exp_avg = vzero ∧
      s.exp_avg_sq = vzero :=
  c8_reset_counter.2.1 c8opt c8wpr (by simp [AdaBound.reset, c8opt, c8wpr])

/-! ## Claim C9 -/

/-- The Yogi parameter loop is the identity when every gradient slot is
absent. -/
lemma Yogi.loop_absent_yogi (cfg : Config) (t : ℕ) {n : ℕ}
    (l : List (Param n)) (h : ∀ pr ∈ l, pr.grad = Grad.absent) :
    loop cfg t l = (none, l) := by
  induction l with
  | nil => rfl
  | cons pr rest ih =>
    have hg := h pr (List.mem_cons_self _ _)
    have hr := ih fun q hq => h q (List.mem_cons_of_mem _ hq)
    simp [loop, handleParam, hg, hr]

/-- `Yogi.init_group` is the identity when every gradient slot is absent. -/
lemma Yogi.init_group_absent (cfg : Config) {n : ℕ}
    (l : List (Param n)) (h : ∀ pr ∈ l, pr.grad = Grad.absent) :
    init_group cfg l = (none, l) := by
  induction l with
  | nil => rfl
  | cons pr rest ih =>
    have hg := h pr (List.mem_cons_self _ _)
    have hr := ih fun q hq => h q (List.mem_cons_of_mem _ hq)
    simp [init_group, hg, hr]

/-- Claim C9: a step call in which every parameter's gradient slot is absent
raises nothing, leaves every parameter (value, gradient, state entry)
unchanged and creates no state entries, while the group step counter is
created at 1 on the first call and incremented by exactly 1 on every call —
for AdaBound unconditionally, for Yogi likewise once the counter exists. -/
theorem c9_no_grad_step :
    (∀ {n : ℕ} (o : AdaBound.Opt n), (∀ pr ∈ o.params, pr.grad = Grad.absent) →
      (AdaBound.step o).1 = none ∧ (AdaBound.step o).2.params = o.params ∧
      (AdaBound.step o).2.stepCount = some (nextStepCount o.stepCount)) ∧
    (∀ {n : ℕ} (o : AdaBound.Opt n),
      (AdaBound.step o).2.stepCount = some (nextStepCount o.stepCount)) ∧
    (∀ {n : ℕ} (o : Yogi.Opt n), (∀ pr ∈ o.params, pr.grad = Grad.absent) →
      (Yogi.step o).1 = none ∧ (Yogi.step o).2.params = o.params ∧
      (Yogi.step o).2.stepCount = some (nextStepCount o.stepCount)) ∧
    (∀ {n : ℕ} (o : Yogi.Opt n) (s : ℕ), o.stepCount = some s →
      (Yogi.step o).2.stepCount = some (s + 1)) := by
  refine ⟨?_, fun o => rfl, ?_, ?_⟩
  · intro n o h
    have hl := AdaBound.loop_absent o.cfg (nextStepCount o.stepCount)
      (AdaBound.lowerBound o.cfg o.base_lr (nextStepCount o.stepCount))
      (AdaBound.upperBound o.cfg o.base_lr (nextStepCount o.stepCount)) o.params h
    exact ⟨by simp [AdaBound.step, hl], by simp [AdaBound.step, hl], rfl⟩
  · intro n o h
    cases hsc : o.stepCount with
    | none =>
      have hi := Yogi.init_group_absent o.cfg o.params h
      have hl := Yogi.loop_absent_yogi o.cfg 1 o.params h
      refine ⟨?_, ?_, ?_⟩ <;> simp [Yogi.step, hsc, hi, hl, nextStepCount]
    | some s =>
      have hl := Yogi.loop_absent_yogi o.cfg (s + 1) o.params h
      refine ⟨?_, ?_, ?_⟩ <;> simp [Yogi.step, hsc, hl, nextStepCount]
  · intro n o s hsc
    simp [Yogi.step, hsc]

/-- Concrete gradient-free optimizers for the C9 witness. -/
def c9abopt : AdaBound.Opt 1 :=
  ⟨⟨1e-3, 0.9, 0.999, 1e-1, 1e-3, 0, true, false, false, false, 1e-8⟩, 1e-3, some 7,
    [⟨vfull 1 1, Grad.absent, none⟩]⟩

/-- Concrete gradient-free Yogi optimizer for the C9 witness. -/
def c9yopt : Yogi.Opt 1 :=
  ⟨⟨1e-2, 0.9, 0.999, 1e-6, 0, true, false, 1e-3, false, false⟩, none,
    [⟨vfull 1 1, Grad.absent, none⟩]⟩

theorem c9_no_grad_step_witness :
    ((AdaBound.step c9abopt).1 = none ∧ (AdaBound.step c9abopt).2.params = c9abopt.params ∧
      (AdaBound.step c9abopt).2.stepCount = some (nextStepCount c9abopt.stepCount)) ∧
    ((Yogi.step c9yopt).1 = none ∧ (Yogi.step c9yopt).2.params = c9yopt.params ∧
      (Yogi.step c9yopt).2.stepCount = some (nextStepCount c9yopt.stepCount)) :=
  ⟨c9_no_grad_step.1 c9abopt (by rintro pr hpr; simp [c9abopt] at hpr; subst hpr; rfl),
   c9_no_grad_step.2.2.1 c9yopt (by rintro pr hpr; simp [c9yopt] at hpr; subst hpr; rfl)⟩

/-! ## Claim C10 -/

/-- Claim C10: a step of either variant is a function of exactly the
parameter values, gradients, state entries, group hyperparameters and step
counter — two executions from componentwise-equal inputs produce equal
outputs (error report, parameter values, accumulators and counters). -/
theorem c10_step_deterministic :
    (∀ {n : ℕ} (o₁ o₂ : AdaBound.Opt n),
      o₁.cfg = o₂.cfg → o₁.base_lr = o₂.base_lr → o₁.stepCount = o₂.stepCount →
      o₁.params = o₂.params → AdaBound.step o₁ = AdaBound.step o₂) ∧
    (∀ {n : ℕ} (o₁ o₂ : Yogi.Opt n),
      o₁.cfg = o₂.cfg → o₁.stepCount = o₂.stepCount → o₁.params = o₂.params →
      Yogi.step o₁ = Yogi.step o₂) := by
  constructor
  · intro n o₁ o₂ h1 h2 h3 h4
    obtain ⟨c1, b1, s1, p1⟩ := o₁
    obtain ⟨c2, b2, s2, p2⟩ := o₂
    simp only at h1 h2 h3 h4
    subst h1; subst h2; subst h3; subst h4
    rfl
  · intro n o₁ o₂ h1 h2 h3
    obtain ⟨c1, s1, p1⟩ := o₁
    obtain ⟨c2, s2, p2⟩ := o₂
    simp only at h1 h2 h3
    subst h1; subst h2; subst h3
    rfl

theorem c10_step_deterministic_witness :
    AdaBound.step c9abopt = AdaBound.step c9abopt ∧
    Yogi.step c9yopt = Yogi.step c9yopt :=
  ⟨c10_step_deterministic.1 c9abopt c9abopt rfl rfl rfl rfl,
   c10_step_deterministic.2 c9yopt c9yopt rfl rfl rfl⟩
